import Mathlib

/-!
Verification of the bill-splitting core of the Locus receipt splitter.

The definitions below are a shallow embedding of the frontend state and
handlers in `frontend/src/App.tsx`, with JavaScript numbers modelled as
exact rationals.  The settlement orchestrator and the negotiation
validation live in the backend, which is not part of the sources here;
those two definitions are modelled from the specification and say so in
their doc comments.
-/

namespace ReceiptSplitter

/-- A receipt line item, as in the `Item` interface of `App.tsx`. -/
structure Item where
  id : String
  quantity : Nat
  name : String
  price : ℚ
  assignedTo : String
deriving DecidableEq, Repr

/-- A participant, as in the `Person` interface of `App.tsx`. -/
structure Person where
  id : String
  name : String
deriving DecidableEq, Repr

/-- The bill state of the `App` component: items, people, the designated
payer (`paidBy`), and the tax and tip percentages. -/
structure BillContext where
  items : List Item
  people : List Person
  paidBy : String
  taxPercent : ℚ
  tipPercent : ℚ
deriving DecidableEq, Repr

/-- `items.reduce((sum, item) => sum + item.price, 0)`. -/
def sumPrices (l : List Item) : ℚ :=
  l.foldl (fun sum item => sum + item.price) 0

/-- `const subtotal = items.reduce((sum, item) => sum + item.price, 0)`. -/
def subtotal (ctx : BillContext) : ℚ := sumPrices ctx.items

/-- `const taxAmount = subtotal * (parseFloat(taxPercent) / 100)`. -/
def taxAmount (ctx : BillContext) : ℚ := subtotal ctx * (ctx.taxPercent / 100)

/-- `const tipAmount = (subtotal + taxAmount) * (parseFloat(tipPercent) / 100)`. -/
def tipAmount (ctx : BillContext) : ℚ :=
  (subtotal ctx + taxAmount ctx) * (ctx.tipPercent / 100)

/-- `const total = subtotal + taxAmount + tipAmount`. -/
def total (ctx : BillContext) : ℚ := subtotal ctx + taxAmount ctx + tipAmount ctx

/-- The owed map `{ [key: string]: number }` of `calculateOwed`, as an
association list in JavaScript object key order. -/
abbrev OwedMap : Type := List (String × ℚ)

/-- Property lookup `owedMap[name]` on the JavaScript object. -/
def lookupOwed : OwedMap → String → Option ℚ
  | [], _ => none
  | (k', v) :: rest, k => if k' = k then some v else lookupOwed rest k

/-- `owedAmounts[person.name] || 0`, the amount read out for display. -/
def owedOf (m : OwedMap) (k : String) : ℚ := (lookupOwed m k).getD 0

/-- Property assignment `owedMap[name] = v` on the JavaScript object:
an existing key keeps its position and is overwritten, a new key is
appended. -/
def insertOwed : OwedMap → String → ℚ → OwedMap
  | [], k, v => [(k, v)]
  | (k', v') :: rest, k, v =>
      if k' = k then (k, v) :: rest else (k', v') :: insertOwed rest k v

/-- The keys of the owed map. -/
def owedKeys (m : OwedMap) : List String := m.map Prod.fst

/-- `Object.values(owedMap)` summed. -/
def sumOwed (m : OwedMap) : ℚ := (m.map Prod.snd).sum

/-- `const personSubtotal = personItems.reduce(...)` where
`personItems = items.filter(item => item.assignedTo === person.name)`. -/
def personSubtotal (ctx : BillContext) (name : String) : ℚ :=
  sumPrices (ctx.items.filter (fun item => decide (item.assignedTo = name)))

/-- The amount stored for one person inside `calculateOwed`:
`personSubtotal + (personSubtotal / subtotal) * (taxAmount + tipAmount)`. -/
def owedAmountOf (ctx : BillContext) (name : String) : ℚ :=
  personSubtotal ctx name +
    (personSubtotal ctx name / subtotal ctx) * (taxAmount ctx + tipAmount ctx)

/-- `calculateOwed` from `App.tsx`: returns the empty map when
`subtotal === 0`, otherwise writes one entry per person in order. -/
def calculateOwed (ctx : BillContext) : OwedMap :=
  if subtotal ctx = 0 then ([] : OwedMap)
  else
    ctx.people.foldl
      (fun owedMap person => insertOwed owedMap person.name (owedAmountOf ctx person.name))
      ([] : OwedMap)

/-- A sanity example: the end-to-end example of the specification. -/
def exampleCtx : BillContext :=
  { items := [⟨"1", 1, "Coffee", 4, "Alice"⟩, ⟨"2", 1, "Muffin", 3, "Alice"⟩]
    people := [⟨"p1", "Alice"⟩, ⟨"p2", "Bob"⟩]
    paidBy := "Bob"
    taxPercent := 10
    tipPercent := 20 }

example : total exampleCtx = 231 / 25 := by
  norm_num [total, subtotal, taxAmount, tipAmount, sumPrices, exampleCtx, List.foldl]

example : calculateOwed exampleCtx = [("Alice", 231 / 25), ("Bob", 0)] := by
  norm_num [calculateOwed, subtotal, sumPrices, exampleCtx, List.foldl, owedAmountOf,
    personSubtotal, insertOwed, taxAmount, tipAmount, List.filter]
  intro h
  exact absurd h (by decide)

/-- Claim C3: the derived quantities of a `BillContext` satisfy the formulas
of the specification: `subtotal` is the sum of the item prices, tax is
`subtotal × taxPercent/100`, tip is `(subtotal + taxAmount) × tipPercent/100`,
and `total` is their sum; moreover the tip base really includes the tax:
whenever the tax amount and the tip percentage are nonzero, the tip
differs from a tip computed on the subtotal alone. -/
theorem C3_derived_quantities (ctx : BillContext) :
    subtotal ctx = sumPrices ctx.items ∧
    taxAmount ctx = subtotal ctx * (ctx.taxPercent / 100) ∧
    tipAmount ctx = (subtotal ctx + taxAmount ctx) * (ctx.tipPercent / 100) ∧
    total ctx = subtotal ctx + taxAmount ctx + tipAmount ctx ∧
    (taxAmount ctx ≠ 0 → ctx.tipPercent ≠ 0 →
      tipAmount ctx ≠ subtotal ctx * (ctx.tipPercent / 100)) := by
  refine ⟨rfl, rfl, rfl, rfl, ?_⟩
  intro htax htip heq
  have h : taxAmount ctx * (ctx.tipPercent / 100) = 0 := by
    have := heq
    unfold tipAmount at this
    ring_nf at this ⊢
    linarith
  rcases mul_eq_zero.mp h with h1 | h2
  · exact htax h1
  · exact htip (by
      have : ctx.tipPercent = 0 := by
        field_simp at h2
        exact h2
      exact this)

/-- Witness for C3: on a concrete bill (one 10-dollar item, 5% tax,
20% tip) the tax amount is nonzero and the tip differs from a tip on the
subtotal alone. -/
theorem C3_derived_quantities_witness :
    tipAmount { items := [⟨"1", 1, "Steak", 10, "A"⟩], people := [⟨"p1", "A"⟩],
                paidBy := "", taxPercent := 5, tipPercent := 20 } ≠
      subtotal { items := [⟨"1", 1, "Steak", 10, "A"⟩], people := [⟨"p1", "A"⟩],
                 paidBy := "", taxPercent := 5, tipPercent := 20 } * ((20 : ℚ) / 100) :=
  (C3_derived_quantities _).2.2.2.2
    (by norm_num [taxAmount, subtotal, sumPrices, List.foldl]) (by norm_num)

/-! Section: Lemmas about the JavaScript-object operations -/

theorem owedKeys_nil : owedKeys [] = [] := rfl

theorem owedKeys_cons (k : String) (v : ℚ) (m : OwedMap) :
    owedKeys ((k, v) :: m) = k :: owedKeys m := rfl

theorem sumOwed_nil : sumOwed [] = 0 := rfl

theorem sumOwed_cons (k : String) (v : ℚ) (m : OwedMap) :
    sumOwed ((k, v) :: m) = v + sumOwed m := by
  simp [sumOwed]

theorem lookupOwed_insert_self (m : OwedMap) (k : String) (v : ℚ) :
    lookupOwed (insertOwed m k v) k = some v := by
  induction m with
  | nil => simp [insertOwed, lookupOwed]
  | cons kv rest ih =>
    obtain ⟨k', v'⟩ := kv
    by_cases h : k' = k
    · simp [insertOwed, h, lookupOwed]
    · simp [insertOwed, h, lookupOwed, ih]

theorem lookupOwed_insert_ne (m : OwedMap) (k : String) (v : ℚ) (k' : String)
    (h : k ≠ k') : lookupOwed (insertOwed m k v) k' = lookupOwed m k' := by
  induction m with
  | nil => simp [insertOwed, lookupOwed, h]
  | cons kv rest ih =>
    obtain ⟨k₀, v₀⟩ := kv
    by_cases h0 : k₀ = k
    · subst h0
      simp [insertOwed, lookupOwed, h]
    · by_cases h1 : k₀ = k'
      · simp [insertOwed, h0, lookupOwed, h1, Ne.symm h]
      · simp [insertOwed, h0, lookupOwed, h1, ih]

theorem owedKeys_insert_mem (m : OwedMap) (k : String) (v : ℚ)
    (h : k ∈ owedKeys m) : owedKeys (insertOwed m k v) = owedKeys m := by
  induction m with
  | nil => simp [owedKeys_nil] at h
  | cons kv rest ih =>
    obtain ⟨k₀, v₀⟩ := kv
    by_cases h0 : k₀ = k
    · simp [insertOwed, h0, owedKeys_cons]
    · have hk : k ∈ owedKeys rest := by
        rcases List.mem_cons.mp (by simpa [owedKeys_cons] using h) with hc | hc
        · exact absurd hc.symm h0
        · exact hc
      simp [insertOwed, h0, owedKeys_cons, ih hk]

theorem owedKeys_insert_not_mem (m : OwedMap) (k : String) (v : ℚ)
    (h : k ∉ owedKeys m) : owedKeys (insertOwed m k v) = owedKeys m ++ [k] := by
  induction m with
  | nil => simp [insertOwed, owedKeys_nil, owedKeys_cons]
  | cons kv rest ih =>
    obtain ⟨k₀, v₀⟩ := kv
    have h0 : k₀ ≠ k := by
      intro hcon
      exact h (by rw [owedKeys_cons, hcon]; exact List.mem_cons_self _ _)
    have hk : k ∉ owedKeys rest := fun hcon =>
      h (by rw [owedKeys_cons]; exact List.mem_cons_of_mem _ hcon)
    simp [insertOwed, h0, owedKeys_cons, ih hk]

theorem mem_owedKeys_insert (m : OwedMap) (k : String) (v : ℚ) (k' : String) :
    k' ∈ owedKeys (insertOwed m k v) ↔ k' ∈ owedKeys m ∨ k' = k := by
  by_cases h : k ∈ owedKeys m
  · rw [owedKeys_insert_mem m k v h]
    exact ⟨Or.inl, fun hc => hc.elim id (fun e => e ▸ h)⟩
  · rw [owedKeys_insert_not_mem m k v h]
    simp

theorem owedKeys_length (m : OwedMap) : (owedKeys m).length = m.length :=
  List.length_map _ _

theorem insertOwed_length_not_mem (m : OwedMap) (k : String) (v : ℚ)
    (h : k ∉ owedKeys m) : (insertOwed m k v).length = m.length + 1 := by
  rw [← owedKeys_length, ← owedKeys_length m, owedKeys_insert_not_mem m k v h]
  simp

theorem owedKeys_insert_nodup (m : OwedMap) (k : String) (v : ℚ)
    (h : (owedKeys m).Nodup) : (owedKeys (insertOwed m k v)).Nodup := by
  by_cases hk : k ∈ owedKeys m
  · rwa [owedKeys_insert_mem m k v hk]
  · rw [owedKeys_insert_not_mem m k v hk]
    simp [List.nodup_append, h, hk]

theorem insertOwed_values (m : OwedMap) (k : String) (f : String → ℚ)
    (hm : ∀ kv ∈ m, kv.2 = f kv.1) :
    ∀ kv ∈ insertOwed m k (f k), kv.2 = f kv.1 := by
  induction m with
  | nil => simp [insertOwed]
  | cons kv₀ rest ih =>
    obtain ⟨k₀, v₀⟩ := kv₀
    by_cases h0 : k₀ = k
    · intro kv hkv
      simp only [insertOwed, if_pos h0] at hkv
      rcases List.mem_cons.mp hkv with h | h
      · simp [h]
      · exact hm kv (List.mem_cons_of_mem _ h)
    · intro kv hkv
      simp only [insertOwed, if_neg h0] at hkv
      rcases List.mem_cons.mp hkv with h | h
      · exact hm kv (h ▸ List.mem_cons_self _ _)
      · exact ih (fun kv' hkv' => hm kv' (List.mem_cons_of_mem _ hkv')) kv h

theorem sumOwed_eq_keys_sum (m : OwedMap) (f : String → ℚ)
    (hm : ∀ kv ∈ m, kv.2 = f kv.1) :
    sumOwed m = ((owedKeys m).map f).sum := by
  induction m with
  | nil => simp [sumOwed_nil, owedKeys_nil]
  | cons kv rest ih =>
    obtain ⟨k, v⟩ := kv
    have hv : v = f k := hm (k, v) (List.mem_cons_self _ _)
    have hr := ih (fun kv' hkv' => hm kv' (List.mem_cons_of_mem _ hkv'))
    rw [sumOwed_cons, owedKeys_cons, List.map_cons, List.sum_cons, hv, hr]

/-! Section: The forEach loop of calculateOwed as a fold -/

/-- The `people.forEach(...)` loop of `calculateOwed`, with the value
written for each person abstracted as `f person.name`. -/
def foldOwed (f : String → ℚ) (ps : List Person) (m : OwedMap) : OwedMap :=
  ps.foldl (fun acc p => insertOwed acc p.name (f p.name)) m

theorem foldOwed_nil (f : String → ℚ) (m : OwedMap) : foldOwed f [] m = m := rfl

theorem foldOwed_cons (f : String → ℚ) (p : Person) (ps : List Person) (m : OwedMap) :
    foldOwed f (p :: ps) m = foldOwed f ps (insertOwed m p.name (f p.name)) := rfl

theorem calculateOwed_eq_foldOwed (ctx : BillContext) (h : subtotal ctx ≠ 0) :
    calculateOwed ctx = foldOwed (owedAmountOf ctx) ctx.people [] := by
  simp [calculateOwed, foldOwed, h]

theorem foldOwed_values (f : String → ℚ) (ps : List Person) :
    ∀ m : OwedMap, (∀ kv ∈ m, kv.2 = f kv.1) →
      ∀ kv ∈ foldOwed f ps m, kv.2 = f kv.1 := by
  induction ps with
  | nil => intro m hm; simpa [foldOwed_nil] using hm
  | cons p rest ih =>
    intro m hm
    rw [foldOwed_cons]
    exact ih _ (insertOwed_values m p.name f hm)

theorem foldOwed_lookup_preserve (f : String → ℚ) (ps : List Person) :
    ∀ (m : OwedMap) (k : String), lookupOwed m k = some (f k) →
      lookupOwed (foldOwed f ps m) k = some (f k) := by
  induction ps with
  | nil => intro m k h; simpa [foldOwed_nil] using h
  | cons p rest ih =>
    intro m k h
    rw [foldOwed_cons]
    apply ih
    by_cases hp : p.name = k
    · rw [hp, lookupOwed_insert_self]
    · rw [lookupOwed_insert_ne m p.name _ k hp]
      exact h

theorem foldOwed_lookup_mem (f : String → ℚ) (ps : List Person) :
    ∀ (m : OwedMap), ∀ p ∈ ps,
      lookupOwed (foldOwed f ps m) p.name = some (f p.name) := by
  induction ps with
  | nil => intro m p hp; simp at hp
  | cons q rest ih =>
    intro m p hp
    rw [foldOwed_cons]
    rcases List.mem_cons.mp hp with h | h
    · subst h
      exact foldOwed_lookup_preserve f rest _ p.name (lookupOwed_insert_self m p.name _)
    · exact ih _ p h

theorem foldOwed_mem_keys (f : String → ℚ) (ps : List Person) :
    ∀ (m : OwedMap) (k : String),
      k ∈ owedKeys (foldOwed f ps m) ↔ k ∈ owedKeys m ∨ k ∈ ps.map Person.name := by
  induction ps with
  | nil => intro m k; simp [foldOwed_nil]
  | cons q rest ih =>
    intro m k
    rw [foldOwed_cons, ih, mem_owedKeys_insert]
    simp only [List.map_cons, List.mem_cons]
    tauto

theorem foldOwed_keys_nodup (f : String → ℚ) (ps : List Person) :
    ∀ m : OwedMap, (owedKeys m).Nodup → (owedKeys (foldOwed f ps m)).Nodup := by
  induction ps with
  | nil => intro m hm; simpa [foldOwed_nil] using hm
  | cons q rest ih =>
    intro m hm
    rw [foldOwed_cons]
    exact ih _ (owedKeys_insert_nodup m q.name _ hm)

theorem foldOwed_length (f : String → ℚ) (ps : List Person) :
    ∀ m : OwedMap, (ps.map Person.name).Nodup →
      (∀ p ∈ ps, p.name ∉ owedKeys m) →
      (foldOwed f ps m).length = m.length + ps.length := by
  induction ps with
  | nil => intro m _ _; simp [foldOwed_nil]
  | cons q rest ih =>
    intro m hnd hfresh
    rw [foldOwed_cons]
    have hq : q.name ∉ owedKeys m := hfresh q (List.mem_cons_self _ _)
    have hnd' : (rest.map Person.name).Nodup := (List.nodup_cons.mp (by simpa using hnd)).2
    have hqrest : q.name ∉ rest.map Person.name :=
      (List.nodup_cons.mp (by simpa using hnd)).1
    have hfresh' : ∀ p ∈ rest, p.name ∉ owedKeys (insertOwed m q.name (f q.name)) := by
      intro p hp
      rw [owedKeys_insert_not_mem m q.name _ hq]
      simp only [List.mem_append, List.mem_singleton]
      rintro (hc | hc)
      · exact hfresh p (List.mem_cons_of_mem _ hp) hc
      · exact hqrest (hc ▸ List.mem_map_of_mem Person.name hp)
    rw [ih _ hnd' hfresh', insertOwed_length_not_mem m q.name _ hq]
    simp [List.length_cons]
    omega

/-- Claim C1: `calculateOwed` returns the empty map when the subtotal is zero;
otherwise each participant's name is mapped to
`personSubtotal + (personSubtotal / subtotal) × (taxAmount + tipAmount)`,
every key of the map is a participant's name, and (participant names being
distinct) the map has one entry per participant. -/
theorem C1_computeOwed (ctx : BillContext) :
    (subtotal ctx = 0 → calculateOwed ctx = []) ∧
    (subtotal ctx ≠ 0 →
      (∀ p ∈ ctx.people,
        lookupOwed (calculateOwed ctx) p.name =
          some (personSubtotal ctx p.name +
            (personSubtotal ctx p.name / subtotal ctx) * (taxAmount ctx + tipAmount ctx))) ∧
      (∀ k ∈ owedKeys (calculateOwed ctx), ∃ p ∈ ctx.people, p.name = k) ∧
      ((ctx.people.map Person.name).Nodup →
        (calculateOwed ctx).length = ctx.people.length)) := by
  constructor
  · intro h
    simp [calculateOwed, h]
  · intro h
    rw [calculateOwed_eq_foldOwed ctx h]
    refine ⟨?_, ?_, ?_⟩
    · intro p hp
      exact foldOwed_lookup_mem (owedAmountOf ctx) ctx.people [] p hp
    · intro k hk
      rcases (foldOwed_mem_keys (owedAmountOf ctx) ctx.people [] k).mp hk with hc | hc
      · simp [owedKeys_nil] at hc
      · obtain ⟨p, hp, hpk⟩ := List.mem_map.mp hc
        exact ⟨p, hp, hpk⟩
    · intro hnd
      rw [foldOwed_length (owedAmountOf ctx) ctx.people [] hnd (by simp [owedKeys_nil])]
      simp

/-- Witness for C1 on the specification's end-to-end example: Alice owes
9.24 and the map has one entry per participant. -/
theorem C1_computeOwed_witness :
    lookupOwed (calculateOwed exampleCtx) "Alice" = some (231 / 25) ∧
    (calculateOwed exampleCtx).length = 2 := by
  have hsub : subtotal exampleCtx ≠ 0 := by
    norm_num [subtotal, sumPrices, exampleCtx, List.foldl]
  have h := (C1_computeOwed exampleCtx).2 hsub
  constructor
  · have h1 := h.1 ⟨"p1", "Alice"⟩ (by simp [exampleCtx])
    rw [h1]
    norm_num [personSubtotal, sumPrices, subtotal, taxAmount, tipAmount, exampleCtx,
      List.filter, List.foldl]
  · have h2 := h.2.2 (by decide)
    simpa [exampleCtx] using h2

/-! Section: Summing the owed map -/

theorem sumPrices_eq_map_sum (l : List Item) :
    sumPrices l = (l.map Item.price).sum := by
  have aux : ∀ (l : List Item) (a : ℚ),
      l.foldl (fun sum item => sum + item.price) a = a + (l.map Item.price).sum := by
    intro l
    induction l with
    | nil => intro a; simp
    | cons i rest ih => intro a; simp [List.foldl_cons, ih, add_assoc]
  simpa [sumPrices] using aux l 0

theorem sumPrices_nil : sumPrices [] = 0 := rfl

theorem sumPrices_cons (i : Item) (l : List Item) :
    sumPrices (i :: l) = i.price + sumPrices l := by
  simp [sumPrices_eq_map_sum]

theorem sum_map_add (l : List String) (u v : String → ℚ) :
    (l.map (fun k => u k + v k)).sum = (l.map u).sum + (l.map v).sum := by
  induction l with
  | nil => simp
  | cons k rest ih => simp [ih]; ring

theorem sum_map_mul_const (l : List String) (u : String → ℚ) (c : ℚ) :
    (l.map (fun k => u k * c)).sum = (l.map u).sum * c := by
  induction l with
  | nil => simp
  | cons k rest ih => simp [ih]; ring

theorem sum_map_zero_fn (l : List String) :
    (l.map (fun _ => (0 : ℚ))).sum = 0 := by
  induction l with
  | nil => simp
  | cons k rest ih => simp [ih]

theorem sum_map_ite_not_mem (l : List String) (a : String) (c : ℚ) (h : a ∉ l) :
    (l.map (fun k => if a = k then c else 0)).sum = 0 := by
  induction l with
  | nil => simp
  | cons k rest ih =>
    have hk : a ≠ k := fun hc => h (hc ▸ List.mem_cons_self _ _)
    have hr : a ∉ rest := fun hc => h (List.mem_cons_of_mem _ hc)
    simp [hk, ih hr]

theorem sum_map_ite_single (l : List String) (hnd : l.Nodup) (a : String)
    (ha : a ∈ l) (c : ℚ) :
    (l.map (fun k => if a = k then c else 0)).sum = c := by
  induction l with
  | nil => simp at ha
  | cons k rest ih =>
    obtain ⟨hk, hrest⟩ := List.nodup_cons.mp hnd
    by_cases h : a = k
    · subst h
      simp [sum_map_ite_not_mem rest a c hk]
    · rcases List.mem_cons.mp ha with hc | hc
      · exact absurd hc h
      · simp [h, ih hrest hc]

/-- Summing the per-key person subtotals over a duplicate-free list of keys
that covers every item's assignment gives back the whole subtotal. -/
theorem filter_partition (keys : List String) (hnd : keys.Nodup) :
    ∀ items : List Item, (∀ it ∈ items, it.assignedTo ∈ keys) →
      (keys.map (fun k =>
        sumPrices (items.filter (fun it => decide (it.assignedTo = k))))).sum
        = sumPrices items := by
  intro items
  induction items with
  | nil =>
    intro _
    simp only [List.filter_nil, sumPrices_nil]
    exact sum_map_zero_fn keys
  | cons it rest ih =>
    intro hall
    have h1 : it.assignedTo ∈ keys := hall it (List.mem_cons_self _ _)
    have hrest : ∀ j ∈ rest, j.assignedTo ∈ keys :=
      fun j hj => hall j (List.mem_cons_of_mem _ hj)
    have hpoint : ∀ k ∈ keys,
        sumPrices ((it :: rest).filter (fun j => decide (j.assignedTo = k)))
          = (if it.assignedTo = k then it.price else 0)
            + sumPrices (rest.filter (fun j => decide (j.assignedTo = k))) := by
      intro k _
      by_cases h : it.assignedTo = k
      · simp [List.filter_cons, h, sumPrices_cons]
      · simp [List.filter_cons, h]
    rw [List.map_congr_left hpoint, sum_map_add, sum_map_ite_single keys hnd _ h1,
      ih hrest, sumPrices_cons]

/-- Claim C2: when every item is assigned to some participant, the values of
the owed map sum exactly to the total in exact rational arithmetic — and so
in particular within the 1e-6 relative tolerance the specification allows
for floating point. -/
theorem C2_sum_owed_eq_total (ctx : BillContext)
    (hall : ∀ it ∈ ctx.items, ∃ p ∈ ctx.people, it.assignedTo = p.name) :
    sumOwed (calculateOwed ctx) = total ctx ∧
    |sumOwed (calculateOwed ctx) - total ctx| ≤ (1 / 1000000) * |total ctx| := by
  have key : sumOwed (calculateOwed ctx) = total ctx := by
    by_cases h : subtotal ctx = 0
    · have hmap : calculateOwed ctx = [] := by simp [calculateOwed, h]
      have htot : total ctx = 0 := by
        simp [total, tipAmount, taxAmount, h]
      rw [hmap, htot, sumOwed_nil]
    · rw [calculateOwed_eq_foldOwed ctx h]
      have hvals : ∀ kv ∈ foldOwed (owedAmountOf ctx) ctx.people [],
          kv.2 = owedAmountOf ctx kv.1 :=
        foldOwed_values (owedAmountOf ctx) ctx.people [] (by simp)
      have hnd : (owedKeys (foldOwed (owedAmountOf ctx) ctx.people [])).Nodup :=
        foldOwed_keys_nodup (owedAmountOf ctx) ctx.people [] (by simp [owedKeys_nil])
      have hmem : ∀ it ∈ ctx.items,
          it.assignedTo ∈ owedKeys (foldOwed (owedAmountOf ctx) ctx.people []) := by
        intro it hit
        obtain ⟨p, hp, hname⟩ := hall it hit
        rw [hname]
        exact (foldOwed_mem_keys (owedAmountOf ctx) ctx.people [] p.name).mpr
          (Or.inr (List.mem_map_of_mem Person.name hp))
      have hpart := filter_partition _ hnd ctx.items hmem
      have hps : ((owedKeys (foldOwed (owedAmountOf ctx) ctx.people [])).map
          (fun k => personSubtotal ctx k)).sum = subtotal ctx := by
        simpa [personSubtotal, subtotal] using hpart
      calc sumOwed (foldOwed (owedAmountOf ctx) ctx.people [])
          = ((owedKeys (foldOwed (owedAmountOf ctx) ctx.people [])).map
              (owedAmountOf ctx)).sum := sumOwed_eq_keys_sum _ _ hvals
        _ = ((owedKeys (foldOwed (owedAmountOf ctx) ctx.people [])).map
              (fun k => personSubtotal ctx k)).sum
            + ((owedKeys (foldOwed (owedAmountOf ctx) ctx.people [])).map
              (fun k => personSubtotal ctx k
                * ((taxAmount ctx + tipAmount ctx) / subtotal ctx))).sum := by
              rw [← sum_map_add]
              apply congrArg
              apply List.map_congr_left
              intro k _
              unfold owedAmountOf
              ring
        _ = subtotal ctx
            + subtotal ctx * ((taxAmount ctx + tipAmount ctx) / subtotal ctx) := by
              rw [sum_map_mul_const, hps]
        _ = total ctx := by
              unfold total
              field_simp
              ring
  refine ⟨key, ?_⟩
  rw [key, sub_self, abs_zero]
  positivity

/-- Witness for C2 on the specification's example bill: both items are
assigned, and the owed values sum to the total 9.24. -/
theorem C2_sum_owed_eq_total_witness :
    sumOwed (calculateOwed exampleCtx) = total exampleCtx :=
  (C2_sum_owed_eq_total exampleCtx (by decide)).1

/-! Section: Unassigned items (C4) -/

theorem sumPrices_perm {l₁ l₂ : List Item} (h : l₁.Perm l₂) :
    sumPrices l₁ = sumPrices l₂ := by
  rw [sumPrices_eq_map_sum, sumPrices_eq_map_sum]
  exact (h.map Item.price).sum_eq

/-- Claim C4: an item with empty `assignedTo` contributes its price to the
subtotal (and through it to the tax/tip base), yet contributes nothing to
any participant's `personSubtotal`: each participant's subtotal is the same
with the unassigned item erased, while the subtotal itself drops by the
item's price. -/
theorem C4_unassigned_item (ctx : BillContext) (it : Item)
    (hmem : it ∈ ctx.items) (hunassigned : it.assignedTo = "")
    (hpos : 0 < subtotal ctx) :
    subtotal ctx = sumPrices (ctx.items.erase it) + it.price ∧
    taxAmount ctx + tipAmount ctx
      = subtotal ctx *
          (ctx.taxPercent / 100 + (1 + ctx.taxPercent / 100) * (ctx.tipPercent / 100)) ∧
    ∀ p ∈ ctx.people, p.name ≠ "" →
      personSubtotal ctx p.name
        = sumPrices ((ctx.items.erase it).filter (fun j => decide (j.assignedTo = p.name))) ∧
      lookupOwed (calculateOwed ctx) p.name
        = some (personSubtotal ctx p.name
            + (personSubtotal ctx p.name / subtotal ctx) * (taxAmount ctx + tipAmount ctx)) := by
  have hperm : ctx.items.Perm (it :: ctx.items.erase it) := List.perm_cons_erase hmem
  refine ⟨?_, ?_, ?_⟩
  · rw [show subtotal ctx = sumPrices ctx.items from rfl, sumPrices_perm hperm,
      sumPrices_cons]
    ring
  · simp only [tipAmount, taxAmount]
    ring
  · intro p hp hname
    constructor
    · have hfilter : (ctx.items.filter (fun j => decide (j.assignedTo = p.name))).Perm
          ((it :: ctx.items.erase it).filter (fun j => decide (j.assignedTo = p.name))) :=
        hperm.filter _
      have hhead : ((it :: ctx.items.erase it).filter
          (fun j => decide (j.assignedTo = p.name)))
          = (ctx.items.erase it).filter (fun j => decide (j.assignedTo = p.name)) := by
        rw [List.filter_cons]
        have : (decide (it.assignedTo = p.name)) = false := by
          simp [hunassigned, Ne.symm hname]
        simp [this]
      rw [show personSubtotal ctx p.name
          = sumPrices (ctx.items.filter (fun j => decide (j.assignedTo = p.name))) from rfl,
        sumPrices_perm hfilter, hhead]
    · rw [calculateOwed_eq_foldOwed ctx hpos.ne']
      exact foldOwed_lookup_mem (owedAmountOf ctx) ctx.people [] p hp

/-- A bill with an unclaimed bread item next to Alice's tea. -/
def c4ctx : BillContext :=
  { items := [⟨"u1", 1, "Bread", 2, ""⟩, ⟨"u2", 1, "Tea", 3, "Alice"⟩]
    people := [⟨"p1", "Alice"⟩]
    paidBy := ""
    taxPercent := 10
    tipPercent := 0 }

/-- Witness for C4: on the concrete bill, the unclaimed bread raises the
subtotal by its price while Alice's person subtotal ignores it. -/
theorem C4_unassigned_item_witness :
    subtotal c4ctx = sumPrices (c4ctx.items.erase ⟨"u1", 1, "Bread", 2, ""⟩)
      + (Item.price ⟨"u1", 1, "Bread", 2, ""⟩) ∧
    personSubtotal c4ctx "Alice"
      = sumPrices ((c4ctx.items.erase ⟨"u1", 1, "Bread", 2, ""⟩).filter
          (fun j => decide (j.assignedTo = "Alice"))) := by
  have h := C4_unassigned_item c4ctx ⟨"u1", 1, "Bread", 2, ""⟩
    (List.mem_cons_self _ _) rfl
    (by norm_num [subtotal, sumPrices, c4ctx, List.foldl])
  exact ⟨h.1, (h.2.2 ⟨"p1", "Alice"⟩ (List.mem_cons_self _ _) (by decide)).1⟩

/-! Section: Removing a participant (C6) -/

/-- `handleRemovePerson` from `App.tsx`: look the person up by id, clear
their item assignments, drop them from the people list, and clear `paidBy`
if it named them. -/
def handleRemovePerson (s : BillContext) (personId : String) : BillContext :=
  match s.people.find? (fun p => decide (p.id = personId)) with
  | none => s
  | some personToRemove =>
    { s with
      items := s.items.map (fun item =>
        if item.assignedTo = personToRemove.name then { item with assignedTo := "" } else item)
      people := s.people.filter (fun p => decide (p.id ≠ personId))
      paidBy := if s.paidBy = personToRemove.name then "" else s.paidBy }

/-- Claim C6: removing a participant found in the registry keeps the item
count, rewrites exactly the `assignedTo` field (clearing it on their items
and leaving every other field and every other item untouched), removes
every person with that id from the registry, clears `paidBy` exactly when
it named the removed person, and leaves the percentages alone. -/
theorem C6_remove_person (s : BillContext) (personId : String) (p : Person)
    (hfind : s.people.find? (fun q => decide (q.id = personId)) = some p) :
    (handleRemovePerson s personId).items.length = s.items.length ∧
    (∀ (i : ℕ) (item : Item), s.items[i]? = some item →
      ∃ item', (handleRemovePerson s personId).items[i]? = some item' ∧
        item'.id = item.id ∧ item'.quantity = item.quantity ∧
        item'.name = item.name ∧ item'.price = item.price ∧
        item'.assignedTo = (if item.assignedTo = p.name then "" else item.assignedTo)) ∧
    (handleRemovePerson s personId).people
      = s.people.filter (fun q => decide (q.id ≠ personId)) ∧
    (∀ q ∈ (handleRemovePerson s personId).people, q.id ≠ personId) ∧
    (s.paidBy = p.name → (handleRemovePerson s personId).paidBy = "") ∧
    (s.paidBy ≠ p.name → (handleRemovePerson s personId).paidBy = s.paidBy) ∧
    (handleRemovePerson s personId).taxPercent = s.taxPercent ∧
    (handleRemovePerson s personId).tipPercent = s.tipPercent := by
  have hs : handleRemovePerson s personId =
      { s with
        items := s.items.map (fun item =>
          if item.assignedTo = p.name then { item with assignedTo := "" } else item)
        people := s.people.filter (fun q => decide (q.id ≠ personId))
        paidBy := if s.paidBy = p.name then "" else s.paidBy } := by
    unfold handleRemovePerson
    rw [hfind]
  refine ⟨?_, ?_, ?_, ?_, ?_, ?_, ?_, ?_⟩
  · rw [hs]
    simp
  · intro i item hitem
    rw [hs]
    refine ⟨if item.assignedTo = p.name then { item with assignedTo := "" } else item, ?_, ?_⟩
    · simp [List.getElem?_map, hitem]
    · by_cases h : item.assignedTo = p.name <;> simp [h]
  · rw [hs]
  · intro q hq
    rw [hs] at hq
    have := (List.mem_filter.mp hq).2
    simpa using this
  · intro h
    rw [hs]
    simp [h]
  · intro h
    rw [hs]
    simp [h]
  · rw [hs]
  · rw [hs]

/-- A two-person bill used to exercise `handleRemovePerson`. -/
def c6ctx : BillContext :=
  { items := [⟨"i1", 1, "Latte", 5, "Ann"⟩, ⟨"i2", 2, "Cake", 6, "Ben"⟩]
    people := [⟨"a", "Ann"⟩, ⟨"b", "Ben"⟩]
    paidBy := "Ann"
    taxPercent := 5
    tipPercent := 20 }

/-- Witness for C6: removing Ann (the payer) keeps both items and clears
the payer designation. -/
theorem C6_remove_person_witness :
    (handleRemovePerson c6ctx "a").items.length = c6ctx.items.length ∧
    (handleRemovePerson c6ctx "a").paidBy = "" := by
  have h := C6_remove_person c6ctx "a" ⟨"a", "Ann"⟩ rfl
  exact ⟨h.1, h.2.2.2.2.1 rfl⟩

/-! Section: Adding a participant (C7) -/

/-- JavaScript `String.prototype.trim`: strip leading and trailing
whitespace. -/
def jsTrim (s : String) : String :=
  String.mk (((s.data.dropWhile Char.isWhitespace).reverse.dropWhile
    Char.isWhitespace).reverse)

example : jsTrim "  Bob " = "Bob" := by decide

/-- `handleAddPerson` from `App.tsx`: a name whose trim is nonempty is
appended (trimmed, with a fresh id); nothing checks for an existing person
with the same name. -/
def handleAddPerson (people : List Person) (freshId : String)
    (newPersonName : String) : List Person :=
  if jsTrim newPersonName ≠ "" then people ++ [⟨freshId, jsTrim newPersonName⟩]
  else people

/-- Claim C7 fails on the code: adding the name "Alice" to a registry that
already contains an Alice is not rejected: the registry ends up with two
participants named Alice, so reachable registries do not have pairwise
distinct names.  (Empty and whitespace-only names are rejected, and names
are trimmed, as the claim says.) -/
theorem C7_duplicate_name_accepted :
    handleAddPerson [⟨"1", "Alice"⟩] "2" "Alice" = [⟨"1", "Alice"⟩, ⟨"2", "Alice"⟩] ∧
    ¬ ((handleAddPerson [⟨"1", "Alice"⟩] "2" "Alice").map Person.name).Nodup ∧
    handleAddPerson [⟨"1", "Alice"⟩] "2" "   " = [⟨"1", "Alice"⟩] ∧
    handleAddPerson [] "1" "  Bob " = [⟨"1", "Bob"⟩] := by
  refine ⟨?_, ?_, ?_, ?_⟩ <;> decide

/-! Section: Payment instructions and the payer (C5) -/

/-- A payment instruction `{ from, to, amount }`. -/
structure PaymentInstruction where
  from_ : String
  to_ : String
  amount : ℚ
deriving DecidableEq, Repr

/-- Modelled from the spec: the backend settlement endpoint (`main.py`,
not among the sources) builds one instruction per non-payer participant
with a positive owed amount, each directed to the payer. -/
def makeInstructions (people : List Person) (payer : String)
    (owed : OwedMap) : List PaymentInstruction :=
  (people.filter (fun q => decide (q.name ≠ payer ∧ 0 < owedOf owed q.name))).map
    (fun q => ⟨q.name, payer, owedOf owed q.name⟩)

/-- A bill whose payer is a participant but whose subtotal is zero. -/
def payerOnlyCtx : BillContext :=
  { items := [], people := [⟨"1", "Bob"⟩], paidBy := "Bob"
    taxPercent := 5, tipPercent := 20 }

/-- Counterexample to C5 as stated: with a designated payer who is a
participant but an empty bill (subtotal 0), `calculateOwed` returns the
empty map, so the payer has no entry in the owed map. -/
theorem C5_counterexample :
    payerOnlyCtx.paidBy ∈ payerOnlyCtx.people.map Person.name ∧
    lookupOwed (calculateOwed payerOnlyCtx) payerOnlyCtx.paidBy = none := by
  constructor
  · decide
  · simp [calculateOwed, subtotal, sumPrices, payerOnlyCtx, lookupOwed]

theorem map_filter_comm (g : Person → PaymentInstruction)
    (r : PaymentInstruction → Bool) (l : List Person) :
    (l.map g).filter r = (l.filter (fun a => r (g a))).map g := by
  induction l with
  | nil => simp
  | cons a rest ih =>
    by_cases h : r (g a) <;> simp [List.filter_cons, h, ih]

/-- Claim C5, amended: for a bill with positive subtotal whose designated
payer is one of the participants: the payer does have an entry in the owed
map; every generated instruction is directed to the payer and never drawn
from the payer, and comes from a participant with positive owed amount;
and each non-payer participant with positive owed amount accounts for
exactly one instruction per occurrence of their name in the registry. -/
theorem C5_payment_instructions (ctx : BillContext)
    (hpos : 0 < subtotal ctx)
    (hpayer : ctx.paidBy ∈ ctx.people.map Person.name) :
    (∃ v, lookupOwed (calculateOwed ctx) ctx.paidBy = some v) ∧
    (∀ ins ∈ makeInstructions ctx.people ctx.paidBy (calculateOwed ctx),
      ins.from_ ≠ ctx.paidBy ∧ ins.to_ = ctx.paidBy ∧
      ∃ p ∈ ctx.people, ins.from_ = p.name ∧
        0 < owedOf (calculateOwed ctx) p.name ∧
        ins.amount = owedOf (calculateOwed ctx) p.name) ∧
    (∀ p ∈ ctx.people, p.name ≠ ctx.paidBy →
      0 < owedOf (calculateOwed ctx) p.name →
      ((makeInstructions ctx.people ctx.paidBy (calculateOwed ctx)).filter
          (fun ins => decide (ins.from_ = p.name))).length
        = (ctx.people.filter (fun q => decide (q.name = p.name))).length) := by
  have hsub : subtotal ctx ≠ 0 := hpos.ne'
  obtain ⟨p0, hp0, hp0name⟩ := List.mem_map.mp hpayer
  refine ⟨?_, ?_, ?_⟩
  · refine ⟨owedAmountOf ctx p0.name, ?_⟩
    rw [calculateOwed_eq_foldOwed ctx hsub, ← hp0name]
    exact foldOwed_lookup_mem _ _ _ p0 hp0
  · intro ins hins
    unfold makeInstructions at hins
    obtain ⟨q, hq, hgq⟩ := List.mem_map.mp hins
    obtain ⟨hqmem, hqcond⟩ := List.mem_filter.mp hq
    have hcond : q.name ≠ ctx.paidBy ∧ 0 < owedOf (calculateOwed ctx) q.name := by
      simpa using hqcond
    subst hgq
    exact ⟨hcond.1, rfl, q, hqmem, rfl, hcond.2, rfl⟩
  · intro p hp hne howed
    unfold makeInstructions
    rw [map_filter_comm, List.length_map, List.filter_filter]
    apply congrArg List.length
    apply List.filter_congr
    intro a _
    by_cases ha : a.name = p.name
    · simp only [ha]
      simp [hne, howed]
    · simp [ha]

/-- Witness for C5 (amended) on the example bill: looked at through the
theorem, Bob the payer has an owed-map entry and Alice accounts for
exactly one instruction. -/
theorem C5_payment_instructions_witness :
    (∃ v, lookupOwed (calculateOwed exampleCtx) exampleCtx.paidBy = some v) ∧
    ((makeInstructions exampleCtx.people exampleCtx.paidBy (calculateOwed exampleCtx)).filter
        (fun ins => decide (ins.from_ = "Alice"))).length
      = (exampleCtx.people.filter (fun q => decide (q.name = "Alice"))).length := by
  have hmap : calculateOwed exampleCtx = [("Alice", 231 / 25), ("Bob", 0)] := by
    norm_num [calculateOwed, subtotal, sumPrices, exampleCtx, List.foldl, owedAmountOf,
      personSubtotal, insertOwed, taxAmount, tipAmount, List.filter]
    intro h
    exact absurd h (by decide)
  have h := C5_payment_instructions exampleCtx
    (by norm_num [subtotal, sumPrices, exampleCtx, List.foldl]) (by decide)
  refine ⟨h.1, h.2.2 ⟨"p1", "Alice"⟩ (by simp [exampleCtx]) (by decide) ?_⟩
  rw [hmap]
  norm_num [owedOf, lookupOwed]

/-! Section: The settlement orchestrator (C8) -/

/-- The transaction-result record of the frontend `Transaction` interface
and of the settlement report. -/
structure TransactionResult where
  from_ : String
  fromAddress : Option String
  to_ : String
  toAddress : Option String
  amount : ℚ
  status : String
  result : Option String
  error : Option String
deriving DecidableEq, Repr

/-- Modelled from the spec: one call of the external Payment Executor on
one instruction, wrapped into a `TransactionResult` — a success carries the
executor's opaque result and optional addresses, a failure carries the
error message; failures are data, not exceptions. -/
def runInstruction
    (executor : PaymentInstruction → Except String (String × Option String × Option String))
    (ins : PaymentInstruction) : TransactionResult :=
  match executor ins with
  | Except.ok (res, fa, ta) =>
      ⟨ins.from_, fa, ins.to_, ta, ins.amount, "success", some res, none⟩
  | Except.error e =>
      ⟨ins.from_, none, ins.to_, none, ins.amount, "failed", none, some e⟩

/-- Modelled from the spec: `settle` attempts every instruction in order,
appending one `TransactionResult` per instruction to the report. -/
def settle
    (executor : PaymentInstruction → Except String (String × Option String × Option String))
    (instructions : List PaymentInstruction) : List TransactionResult :=
  instructions.foldl (fun report ins => report ++ [runInstruction executor ins]) []

theorem settle_eq_map (executor : PaymentInstruction →
      Except String (String × Option String × Option String))
    (instrs : List PaymentInstruction) :
    settle executor instrs = instrs.map (runInstruction executor) := by
  have aux : ∀ (l : List PaymentInstruction) (acc : List TransactionResult),
      l.foldl (fun report ins => report ++ [runInstruction executor ins]) acc
        = acc ++ l.map (runInstruction executor) := by
    intro l
    induction l with
    | nil => intro acc; simp
    | cons i rest ih => intro acc; simp [ih]
  simpa [settle] using aux instrs []

/-- Claim C8: `settle` returns one result per instruction, in instruction
order, and the result at each position is fully determined by that
instruction alone — a failure of the executor on one instruction cannot
abort or alter any other instruction's result; a failed call yields a
`"failed"` result carrying the error, a successful call a `"success"`
result. -/
theorem C8_settle_report (executor : PaymentInstruction →
      Except String (String × Option String × Option String))
    (instrs : List PaymentInstruction) :
    (settle executor instrs).length = instrs.length ∧
    (∀ i : ℕ, (settle executor instrs)[i]? =
      (instrs[i]?).map (runInstruction executor)) ∧
    (∀ (ins : PaymentInstruction) (res : String) (fa ta : Option String),
      executor ins = Except.ok (res, fa, ta) →
      (runInstruction executor ins).status = "success" ∧
      (runInstruction executor ins).result = some res) ∧
    (∀ (ins : PaymentInstruction) (e : String),
      executor ins = Except.error e →
      (runInstruction executor ins).status = "failed" ∧
      (runInstruction executor ins).error = some e) := by
  refine ⟨?_, ?_, ?_, ?_⟩
  · rw [settle_eq_map]
    exact List.length_map _ _
  · intro i
    rw [settle_eq_map]
    exact List.getElem?_map _ _ _
  · intro ins res fa ta h
    simp [runInstruction, h]
  · intro ins e h
    simp [runInstruction, h]

/-- An executor that fails on the instruction from "A" and succeeds on any
other, as in the specification's partial-failure example. -/
def exampleExecutor (ins : PaymentInstruction) :
    Except String (String × Option String × Option String) :=
  if ins.from_ = "A" then Except.error "insufficient balance"
  else Except.ok ("receipt", none, none)

/-- Witness for C8: two instructions, the executor failing on the first
and succeeding on the second, give a two-entry report with statuses
failed then success. -/
theorem C8_settle_report_witness :
    (settle exampleExecutor [⟨"A", "Payer", 5⟩, ⟨"B", "Payer", 15 / 2⟩]).length = 2 ∧
    (runInstruction exampleExecutor ⟨"A", "Payer", 5⟩).status = "failed" ∧
    (runInstruction exampleExecutor ⟨"B", "Payer", 15 / 2⟩).status = "success" := by
  refine ⟨?_, ?_, ?_⟩
  · rw [(C8_settle_report exampleExecutor [⟨"A", "Payer", 5⟩, ⟨"B", "Payer", 15 / 2⟩]).1]
    rfl
  · exact ((C8_settle_report exampleExecutor [⟨"A", "Payer", 5⟩, ⟨"B", "Payer", 15 / 2⟩]).2.2.2
      ⟨"A", "Payer", 5⟩ "insufficient balance" (by simp [exampleExecutor])).1
  · exact ((C8_settle_report exampleExecutor [⟨"A", "Payer", 5⟩, ⟨"B", "Payer", 15 / 2⟩]).2.2.1
      ⟨"B", "Payer", 15 / 2⟩ "receipt" none none (by simp [exampleExecutor])).1

/-! Section: Negotiation final-amounts validation (C9) -/

/-- Modelled from the spec: the backend negotiation endpoint (not among
the sources) parses the collaborator's final amounts and validates that
both are non-negative and that they sum to the bill total within the
tolerance `tol`; a failure is a hard `ValidationError` surfaced to the
caller, and the amounts are never altered. -/
def validateFinalAmounts (tol p1 p2 t : ℚ) : Except String (ℚ × ℚ) :=
  if 0 ≤ p1 ∧ 0 ≤ p2 ∧ |p1 + p2 - t| ≤ tol then Except.ok (p1, p2)
  else Except.error "ValidationError: final amounts must be non-negative and sum to the bill total"

/-- Claim C9: validation succeeds exactly when both parsed amounts are
non-negative and their sum matches the total within the tolerance; on
failure a `ValidationError` is returned, and a success always returns the
parsed amounts unchanged (no silent correction). -/
theorem C9_negotiation_validation (tol p1 p2 t : ℚ) :
    (validateFinalAmounts tol p1 p2 t = Except.ok (p1, p2) ↔
      0 ≤ p1 ∧ 0 ≤ p2 ∧ |p1 + p2 - t| ≤ tol) ∧
    (¬ (0 ≤ p1 ∧ 0 ≤ p2 ∧ |p1 + p2 - t| ≤ tol) →
      validateFinalAmounts tol p1 p2 t =
        Except.error "ValidationError: final amounts must be non-negative and sum to the bill total") ∧
    (∀ q1 q2 : ℚ, validateFinalAmounts tol p1 p2 t = Except.ok (q1, q2) →
      q1 = p1 ∧ q2 = p2) := by
  unfold validateFinalAmounts
  by_cases h : 0 ≤ p1 ∧ 0 ≤ p2 ∧ |p1 + p2 - t| ≤ tol
  · refine ⟨by simp [h], fun hc => absurd h hc, ?_⟩
    intro q1 q2 heq
    rw [if_pos h] at heq
    have := Except.ok.inj heq
    exact ⟨congrArg Prod.fst this.symm, congrArg Prod.snd this.symm⟩
  · refine ⟨?_, fun _ => by simp [h], ?_⟩
    · rw [if_neg h]
      simp [h]
    · intro q1 q2 heq
      rw [if_neg h] at heq
      exact absurd heq (by simp)

/-- Witness for C9 on the specification's concrete examples: 6.00 + 3.24
against total 9.24 passes, 6.00 + 2.00 raises the validation error. -/
theorem C9_negotiation_validation_witness :
    validateFinalAmounts (1 / 100) 6 (81 / 25) (231 / 25) = Except.ok (6, 81 / 25) ∧
    validateFinalAmounts (1 / 100) 6 2 (231 / 25) =
      Except.error "ValidationError: final amounts must be non-negative and sum to the bill total" := by
  constructor
  · refine (C9_negotiation_validation (1 / 100) 6 (81 / 25) (231 / 25)).1.mpr
      ⟨by norm_num, by norm_num, ?_⟩
    rw [show (6 : ℚ) + 81 / 25 - 231 / 25 = 0 by norm_num, abs_zero]
    norm_num
  · refine (C9_negotiation_validation (1 / 100) 6 2 (231 / 25)).2.1 ?_
    intro hcon
    have h3 := hcon.2.2
    rw [show (6 : ℚ) + 2 - 231 / 25 = -(31 / 25) by norm_num] at h3
    rw [abs_neg, abs_of_nonneg (by norm_num)] at h3
    norm_num at h3

/-! Section: The price input field (C10) -/

/-- The regular expression test of the price input, `/^\d*\.?\d*$/`:
digits, at most one decimal point, digits. -/
def isNumericInput (s : String) : Bool :=
  match s.data.dropWhile Char.isDigit with
  | [] => true
  | '.' :: rest => rest.all Char.isDigit
  | _ => false

example : isNumericInput "12.50" = true := by decide
example : isNumericInput "1.2.3" = false := by decide
example : isNumericInput "-5" = false := by decide
example : isNumericInput "." = true := by decide

/-- The numeric value of a run of decimal digit characters. -/
def digitsToNat (cs : List Char) : Nat :=
  cs.foldl (fun a c => 10 * a + (c.toNat - 48)) 0

/-- The digit run following the decimal point, if any. -/
def jsFracPart (s : String) : List Char :=
  match s.data.dropWhile Char.isDigit with
  | '.' :: r => r.takeWhile Char.isDigit
  | _ => []

/-- JavaScript `parseFloat` on strings accepted by the numeric input
pattern: `none` models the `NaN` produced when no digit is present
(the input "."), otherwise the exact decimal value. -/
def jsParseFloat (s : String) : Option ℚ :=
  if s.data.takeWhile Char.isDigit = [] ∧ jsFracPart s = [] then none
  else some ((digitsToNat (s.data.takeWhile Char.isDigit) : ℚ)
    + (digitsToNat (jsFracPart s) : ℚ) / (10 : ℚ) ^ (jsFracPart s).length)

/-- An item as held by the price input handler, with the price as a raw
JavaScript number: `none` models `NaN`. -/
structure PriceItem where
  id : String
  quantity : Nat
  name : String
  price : Option ℚ
  assignedTo : String
deriving DecidableEq, Repr

/-- The `onChange` handler of the price input in `App.tsx`: a value that
is empty or matches the numeric pattern commits a new price for the item
with the given id (the empty string committing `0`), any other value is
ignored and changes nothing. -/
def priceOnChange (items : List PriceItem) (itemId : String) (val : String) :
    List PriceItem :=
  if val = "" ∨ isNumericInput val = true then
    items.map (fun i =>
      if i.id = itemId
      then { i with price := if val = "" then some 0 else jsParseFloat val }
      else i)
  else items

theorem jsParseFloat_nonneg (s : String) (q : ℚ) (h : jsParseFloat s = some q) :
    0 ≤ q := by
  unfold jsParseFloat at h
  split at h
  · exact absurd h (by simp)
  · have hq := Option.some.inj h
    rw [← hq]
    positivity

/-- Claim C10: committing a string that fails the numeric pattern leaves the
items untouched (rejection is atomic); committing the empty string sets the
item's price to exactly 0; and the handler never stores a negative price:
if no stored price was negative before the commit, none is after it. -/
theorem C10_price_input (items : List PriceItem) (itemId val : String) :
    (val ≠ "" → isNumericInput val = false → priceOnChange items itemId val = items) ∧
    (val = "" → priceOnChange items itemId val
        = items.map (fun i => if i.id = itemId then { i with price := some 0 } else i)) ∧
    ((∀ i ∈ items, ∀ q : ℚ, i.price = some q → 0 ≤ q) →
      ∀ j ∈ priceOnChange items itemId val, ∀ q : ℚ, j.price = some q → 0 ≤ q) := by
  refine ⟨?_, ?_, ?_⟩
  · intro hne hfalse
    have hcond : ¬ (val = "" ∨ isNumericInput val = true) := by
      rintro (hc | hc)
      · exact hne hc
      · rw [hfalse] at hc
        exact Bool.false_ne_true hc
    simp [priceOnChange, hcond]
  · intro hval
    subst hval
    simp [priceOnChange]
  · intro hinv j hj q hq
    by_cases hcond : val = "" ∨ isNumericInput val = true
    · rw [priceOnChange, if_pos hcond] at hj
      obtain ⟨i, hi, hfi⟩ := List.mem_map.mp hj
      by_cases hid : i.id = itemId
      · rw [if_pos hid] at hfi
        rw [← hfi] at hq
        simp only at hq
        by_cases hv : val = ""
        · rw [if_pos hv] at hq
          have : (0 : ℚ) = q := Option.some.inj hq
          rw [← this]
        · rw [if_neg hv] at hq
          exact jsParseFloat_nonneg val q hq
      · rw [if_neg hid] at hfi
        exact hinv i hi q (hfi ▸ hq)
    · rw [priceOnChange, if_neg hcond] at hj
      exact hinv j hj q hq

/-- The single-item list used to exercise the price input handler. -/
def c10items : List PriceItem := [⟨"1", 1, "Coffee", some 4, ""⟩]

/-- Witness for C10: committing "4a" is rejected and changes nothing,
committing "" resets the price to 0, and after committing "2.5" no stored
price is negative. -/
theorem C10_price_input_witness :
    priceOnChange c10items "1" "4a" = c10items ∧
    priceOnChange c10items "1" "" = [⟨"1", 1, "Coffee", some 0, ""⟩] ∧
    (∀ j ∈ priceOnChange c10items "1" "2.5", ∀ q : ℚ, j.price = some q → 0 ≤ q) := by
  refine ⟨?_, ?_, ?_⟩
  · exact (C10_price_input c10items "1" "4a").1 (by decide) (by decide)
  · rw [(C10_price_input c10items "1" "").2.1 rfl]
    rfl
  · refine (C10_price_input c10items "1" "2.5").2.2 ?_
    intro i hi q hq
    rw [show c10items = [⟨"1", 1, "Coffee", some 4, ""⟩] from rfl,
      List.mem_singleton] at hi
    subst hi
    simp only [Option.some.injEq] at hq
    rw [← hq]
    norm_num

end ReceiptSplitter
